import Mathlib

/-!
# Verification of the `git-stack run` cascade orchestrator

A shallow embedding of `RunArgs::exec` from `src/bin/git-stack/run.rs`:
the command-line flags, the stash safety step, the graph walk with
fail-fast pruning and first-failure tracking, and the post-flight
restoration / switch-to-failure step.

The stack graph is abstracted to a tree of commit nodes (identified by
`Nat` commit ids); the traversal cursor, which lives in repository code
outside the excerpt, is modelled from the spec (§4.5) as a frontier
queue fused into the run loop. External collaborators (the object/ref
store, stash primitives, `ops::switch`) are likewise modelled at their
spec interface: checkouts and stash operations are recorded as an
effect trace rather than performed.
-/

namespace GitStackRun

/-- A node of the stack graph: a commit id and its child subtrees.
Mirrors the single-rooted DAG-as-tree of §3 (`StackGraph`): every
non-root node has exactly one parent, so the portion below the
merge-base is a forest of trees. -/
inductive Tree where
  | node (id : Nat) (children : List Tree)
deriving Repr

/-- Total number of nodes in a forest (termination measure for the walk). -/
def Forest.size : List Tree → Nat
  | [] => 0
  | Tree.node _ cs :: ts => 1 + Forest.size cs + Forest.size ts

theorem Forest.size_append (a b : List Tree) :
    Forest.size (a ++ b) = Forest.size a + Forest.size b := by
  induction a with
  | nil => simp [Forest.size]
  | cons t ts ih =>
    cases t with
    | node i cs => simp [Forest.size, ih]; omega

/-- Outcome of spawning and waiting on the caller-supplied command at one
commit, as classified by the `match status` in `run.rs` lines 125-161:
a normal exit with a code, termination by signal (`status.code()` is
`None`), or a spawn error. -/
inductive CmdOutcome where
  | exited (code : Nat)
  | signaled
  | spawnFailure
deriving Repr, DecidableEq

/-- `status.success()`: only a zero exit status counts as success. -/
def CmdOutcome.isSuccess : CmdOutcome → Bool
  | .exited 0 => true
  | _ => false

/-- The mutable locals of the walk loop in `exec` (`run.rs` lines 100-169),
plus recorded effect lists: `visited` is the sequence of commits the
cursor yielded, `commands` the commits at which the external command was
spawned, `checkouts` the `switch_commit` calls actually performed. -/
structure WalkState where
  firstFailure : Option Nat
  success : Bool
  visited : List Nat
  commands : List Nat
  checkouts : List Nat
deriving Repr, DecidableEq

/-- The walk loop of `exec` fused with the traversal cursor.

Modelled from the spec: the Traversal Cursor (§4.5) is repository code
outside the excerpt; per §4.5 `into_cursor` starts the frontier at the
root's children, `next` pops a ready node and enqueues its children, and
`stop` prunes exactly the popped node's subtree. Fusing that with the
loop body of `run.rs` lines 104-169: for each popped `Tree.node i cs`,
the commit is checked out unless `dry` (line 117), the command is run
(line 121), and on failure `first_failure.get_or_insert(i)` records the
first failure (line 163), `success` is cleared (line 167), and under
fail-fast `cursor.stop()` drops `cs` from the frontier (line 165). -/
def runWalk (cmd : Nat → CmdOutcome) (ff dry : Bool) :
    List Tree → WalkState → WalkState
  | [], s => s
  | Tree.node i cs :: rest, s =>
    let s1 : WalkState :=
      { s with
        visited := s.visited ++ [i]
        commands := s.commands ++ [i]
        checkouts := if dry then s.checkouts else s.checkouts ++ [i] }
    if (cmd i).isSuccess then
      runWalk cmd ff dry (rest ++ cs) s1
    else
      let s2 : WalkState :=
        { s1 with
          firstFailure := match s1.firstFailure with
            | none => some i
            | some x => some x
          success := false }
      runWalk cmd ff dry (if ff then rest else rest ++ cs) s2
termination_by ts _ => Forest.size ts
decreasing_by
  · simp only [Forest.size, Forest.size_append]; omega
  · split <;> simp only [Forest.size, Forest.size_append] <;> omega

/-- Initial walk state (`first_failure = None`, `success = true`). -/
def initWalk : WalkState :=
  { firstFailure := none, success := true, visited := [], commands := [],
    checkouts := [] }

/-- The command-line flags of `RunArgs` that steer `exec` (the trailing
command vector is abstracted into the environment's per-commit outcome
function). Field names follow `run.rs`; `ff_flag` stands for the hidden
`fail_fast` flag (`--ff`). -/
structure RunArgs where
  no_fail_fast : Bool
  ff_flag : Bool
  switch : Bool
  dry_run : Bool
deriving Repr, DecidableEq

/-- `resolve_bool_arg` from `run.rs` lines 212-219. The `(true, true)`
case is `unreachable!` in the source because clap's `overrides_with`
never produces it; it is mapped to `none` here so the function is total
on the states clap can produce plus a dead branch. -/
def resolve_bool_arg (yes no : Bool) : Option Bool :=
  match yes, no with
  | true, false => some true
  | false, true => some false
  | false, false => none
  | true, true => none

/-- `RunArgs::fail_fast` (`run.rs` lines 207-209): resolved flag pair,
defaulting to `true`. -/
def RunArgs.failFast (a : RunArgs) : Bool :=
  (resolve_bool_arg a.ff_flag a.no_fail_fast).getD true

/-- A working-tree move: `switch_commit` / `ops::switch` target a commit,
the restore path may target the original named branch. -/
inductive CheckoutTarget where
  | commit (id : Nat)
  | branch (name : String)
deriving Repr, DecidableEq

/-- The environment `exec` runs against: the outcomes of its fallible
collaborator calls (§6 external interfaces) and the repository shape.
`discoverOk` covers `current_dir`/`Repository::discover`; `configOk`
covers `RepoConfig::from_all`; `protectedOk` covers
`ProtectedBranches::new`; `branchSetOk` covers `BranchSet::from_repo`;
`graphOk` covers `Graph::from_branches` (ancestry walk). `dirty` is the
working tree's dirtiness on entry; `mergeBase` is the result of
`repo.merge_base(base.id, head_id)`; `graphChildren` are the children
of the merge-base root in `graph.descendants_of(merge_base_oid)` (the
root itself is never visited, §4.5); `cmd` gives the external command's
outcome at each commit. -/
structure Env where
  discoverOk : Bool
  configOk : Bool
  protectedOk : Bool
  branchSetOk : Bool
  graphOk : Bool
  dirty : Bool
  headBranch : Option String
  headId : Nat
  mergeBase : Option Nat
  graphChildren : List Tree
  cmd : Nat → CmdOutcome

/-- What one invocation of `exec` did: its process exit code and the
trace of effects. `stashPushCalled` records the `stash_push` call,
`stashId` its return value (a stash exists only if the tree was
dirty), `stashPopCalled` the `stash_pop(&mut repo, stash_id)` call
(which pops only when `stashId` is `some`), `checkouts` every
working-tree move in order, `dirtyReported` the dirty-tree diagnostic,
and `panicked` whether the `assert!`/`unwrap` on the switch-to-failure
path fired. -/
structure ExecResult where
  exit : Nat
  stashPushCalled : Bool
  stashId : Option Nat
  stashPopCalled : Bool
  checkouts : List CheckoutTarget
  visited : List Nat
  commands : List Nat
  firstFailure : Option Nat
  dirtyReported : Bool
  panicked : Bool
deriving Repr, DecidableEq

/-- `proc_exit::sysexits::USAGE_ERR` (EX_USAGE). -/
def USAGE_ERR : Nat := 64
/-- `proc_exit::sysexits::CONFIG_ERR` (EX_CONFIG). -/
def CONFIG_ERR : Nat := 78
/-- `proc_exit::Code::FAILURE`, the generic failure exit code. -/
def FAILURE : Nat := 1
/-- Exit code of an aborting `panic!` in the Rust runtime. -/
def PANIC : Nat := 101

/-- An `ExecResult` for a run that stopped before the stash step. -/
def earlyExit (code : Nat) : ExecResult :=
  { exit := code, stashPushCalled := false, stashId := none,
    stashPopCalled := false, checkouts := [], visited := [],
    commands := [], firstFailure := none, dirtyReported := false,
    panicked := false }

/-- `RunArgs::exec` (`run.rs` lines 37-205) as a function from flags and
environment to exit code plus effect trace.

Pre-flight in source order: repository discovery and config loading
(usage / config errors), `BranchSet::from_repo` (generic failure);
the stash step (`stash_push` is called only when neither `--dry-run`
nor `--switch`; modelled from the spec, `stash_push` creates a stash
exactly when the tree is dirty and leaves it clean); the dirty check
(report-only under dry run, usage error otherwise); `merge_base`
(usage error when no common ancestor); `Graph::from_branches`
(generic failure). Then the walk, then post-flight: the
switch-to-failure branch (with its `assert!` on `stash_id` and
`first_failure.unwrap()`, both mapped to `panicked`), or restoration
to the original branch/commit followed by `stash_pop`. `ops::switch`
is modelled from the spec: it moves the working tree to the first
failing commit, and performs no checkout under dry run (§8). -/
def exec (a : RunArgs) (env : Env) : ExecResult :=
  if !env.discoverOk then earlyExit USAGE_ERR
  else if !env.configOk then earlyExit CONFIG_ERR
  else if !env.protectedOk then earlyExit CONFIG_ERR
  else if !env.branchSetOk then earlyExit FAILURE
  else
    let doStash : Bool := !a.dry_run && !a.switch
    let stashId : Option Nat := if doStash && env.dirty then some 0 else none
    let dirtyNow : Bool := env.dirty && !doStash
    let base : ExecResult :=
      { earlyExit 0 with stashPushCalled := doStash, stashId := stashId }
    if dirtyNow && !a.dry_run then
      { base with exit := USAGE_ERR }
    else
      let base := { base with dirtyReported := dirtyNow && a.dry_run }
      match env.mergeBase with
      | none => { base with exit := USAGE_ERR }
      | some _ =>
        if !env.graphOk then { base with exit := FAILURE }
        else
          let ws := runWalk env.cmd a.failFast a.dry_run env.graphChildren
            initWalk
          let base :=
            { base with
              visited := ws.visited
              commands := ws.commands
              checkouts := ws.checkouts.map CheckoutTarget.commit
              firstFailure := ws.firstFailure }
          if !ws.success && a.switch && ws.firstFailure != some env.headId
          then
            match stashId, ws.firstFailure with
            | none, some f =>
              { base with
                exit := FAILURE
                checkouts := base.checkouts ++
                  (if a.dry_run then [] else [CheckoutTarget.commit f]) }
            | _, _ => { base with exit := PANIC, panicked := true }
          else
            let restore : List CheckoutTarget :=
              if a.dry_run then []
              else
                match env.headBranch with
                | some b => [CheckoutTarget.branch b]
                | none => [CheckoutTarget.commit env.headId]
            { base with
              exit := if ws.success then 0 else FAILURE
              checkouts := base.checkouts ++ restore
              stashPopCalled := true }

/-- The sequence of commits the cursor yields to the loop: the walk's
control flow only (the frontier evolves exactly as in `runWalk`, whose
branch on `(cmd i).isSuccess` and `ff` does not depend on the
accumulated state). -/
def walkVisits (cmd : Nat → CmdOutcome) (ff : Bool) : List Tree → List Nat
  | [] => []
  | Tree.node i cs :: rest =>
    if (cmd i).isSuccess then i :: walkVisits cmd ff (rest ++ cs)
    else i :: walkVisits cmd ff (if ff then rest else rest ++ cs)
termination_by ts => Forest.size ts
decreasing_by
  · simp only [Forest.size, Forest.size_append]; omega
  · split <;> simp only [Forest.size, Forest.size_append] <;> omega

/-- A stash pop actually happened: `stash_pop` was called with an
existing stash id. -/
def ExecResult.stashPopPerformed (r : ExecResult) : Bool :=
  r.stashPopCalled && r.stashId.isSome

/-- The pre-flight collaborator calls up to and including
`BranchSet::from_repo` all succeeded. -/
def Env.collabOk (env : Env) : Bool :=
  env.discoverOk && env.configOk && env.protectedOk && env.branchSetOk

/-- `exec` reaches the walk: every pre-flight step passes. The dirty
abort happens exactly when the tree is dirty, no stash was taken
(`--switch` given) and the run is real. -/
def preflightOk (a : RunArgs) (env : Env) : Bool :=
  env.collabOk && env.graphOk && env.mergeBase.isSome &&
    !(env.dirty && a.switch && !a.dry_run)

/-- All commit ids of a forest, in depth-first preorder. -/
def allNodes : List Tree → List Nat
  | [] => []
  | Tree.node i cs :: rest => i :: (allNodes cs ++ allNodes rest)
termination_by ts => Forest.size ts
decreasing_by
  · simp only [Forest.size]; omega
  · simp only [Forest.size]; omega

/-- Spec-side description of fail-fast pruning (§4.5 `stop()`, §8): the
nodes that survive a fail-fast walk are exactly those below no failing
node — a node is enumerated, and its children are pruned exactly when
its command fails, while its siblings are kept. -/
def survivors (cmd : Nat → CmdOutcome) : List Tree → List Nat
  | [] => []
  | Tree.node i cs :: rest =>
    i :: ((if (cmd i).isSuccess then survivors cmd cs else []) ++
      survivors cmd rest)
termination_by ts => Forest.size ts
decreasing_by
  · simp only [Forest.size]; omega
  · simp only [Forest.size]; omega

/-- The walk state `exec` ends up with after the cascade loop. -/
def wsOf (a : RunArgs) (env : Env) : WalkState :=
  runWalk env.cmd a.failFast a.dry_run env.graphChildren initWalk

/-- The cursor's yield sequence for a given invocation. -/
def visitsOf (a : RunArgs) (env : Env) : List Nat :=
  walkVisits env.cmd a.failFast env.graphChildren

/-- The example stack of §8: `base -> 1 -> 2 -> 3`, head at commit 3. -/
def sampleTree : List Tree := [Tree.node 1 [Tree.node 2 [Tree.node 3 []]]]

/-- A command that succeeds at every commit. -/
def alwaysOk : Nat → CmdOutcome := fun _ => CmdOutcome.exited 0

/-- A command that fails (exit code 3) exactly at commit 2. -/
def failsAt2 : Nat → CmdOutcome := fun i =>
  if i = 2 then CmdOutcome.exited 3 else CmdOutcome.exited 0

/-- `git stack run <cmd>` with no flags. -/
def defaultArgs : RunArgs :=
  { no_fail_fast := false, ff_flag := false, switch := false,
    dry_run := false }

/-- `git stack run --switch <cmd>`. -/
def switchArgs : RunArgs := { defaultArgs with switch := true }

/-- `git stack run --dry-run <cmd>`. -/
def dryArgs : RunArgs := { defaultArgs with dry_run := true }

/-- A healthy repository on branch `main` at commit 3 carrying the
sample stack, with a clean working tree. -/
def baseEnv : Env :=
  { discoverOk := true, configOk := true, protectedOk := true,
    branchSetOk := true, graphOk := true, dirty := false,
    headBranch := some "main", headId := 3, mergeBase := some 0,
    graphChildren := sampleTree, cmd := alwaysOk }

/-- The healthy repository, but the command fails at commit 2. -/
def envFail2 : Env := { baseEnv with cmd := failsAt2 }

theorem runWalk_nil (cmd : Nat → CmdOutcome) (ff dry : Bool) (s : WalkState) :
    runWalk cmd ff dry [] s = s := by
  simp [runWalk]

theorem runWalk_cons (cmd : Nat → CmdOutcome) (ff dry : Bool) (i : Nat)
    (cs rest : List Tree) (s : WalkState) :
    runWalk cmd ff dry (Tree.node i cs :: rest) s =
      if (cmd i).isSuccess then
        runWalk cmd ff dry (rest ++ cs)
          { s with
            visited := s.visited ++ [i]
            commands := s.commands ++ [i]
            checkouts := if dry then s.checkouts else s.checkouts ++ [i] }
      else
        runWalk cmd ff dry (if ff then rest else rest ++ cs)
          { firstFailure := match s.firstFailure with
              | none => some i
              | some x => some x
            success := false
            visited := s.visited ++ [i]
            commands := s.commands ++ [i]
            checkouts := if dry then s.checkouts else s.checkouts ++ [i] } := by
  rw [runWalk]

theorem walkVisits_nil (cmd : Nat → CmdOutcome) (ff : Bool) :
    walkVisits cmd ff [] = [] := by
  simp [walkVisits]

theorem walkVisits_cons (cmd : Nat → CmdOutcome) (ff : Bool) (i : Nat)
    (cs rest : List Tree) :
    walkVisits cmd ff (Tree.node i cs :: rest) =
      if (cmd i).isSuccess then i :: walkVisits cmd ff (rest ++ cs)
      else i :: walkVisits cmd ff (if ff then rest else rest ++ cs) := by
  rw [walkVisits]

/-- Full characterization of the walk loop in terms of the cursor's
yield sequence `walkVisits`: the effect lists extend the incoming
state's, the first failure recorded is the first yielded commit whose
command fails, and `success` survives exactly when every yielded
command succeeds. -/
theorem runWalk_spec (cmd : Nat → CmdOutcome) (ff dry : Bool) (ts : List Tree)
    (s : WalkState) :
    (runWalk cmd ff dry ts s).visited = s.visited ++ walkVisits cmd ff ts ∧
    (runWalk cmd ff dry ts s).commands = s.commands ++ walkVisits cmd ff ts ∧
    (runWalk cmd ff dry ts s).checkouts =
      (if dry then s.checkouts else s.checkouts ++ walkVisits cmd ff ts) ∧
    (runWalk cmd ff dry ts s).firstFailure =
      (match s.firstFailure with
       | some x => some x
       | none => (walkVisits cmd ff ts).find? (fun i => !(cmd i).isSuccess)) ∧
    (runWalk cmd ff dry ts s).success =
      (s.success && (walkVisits cmd ff ts).all (fun i => (cmd i).isSuccess)) := by
  match ts with
  | [] =>
    simp [runWalk_nil, walkVisits_nil]
    cases s.firstFailure <;> simp
  | Tree.node i cs :: rest =>
    rw [runWalk_cons, walkVisits_cons]
    by_cases hc : (cmd i).isSuccess = true
    · have ih := runWalk_spec cmd ff dry (rest ++ cs)
        { s with
          visited := s.visited ++ [i]
          commands := s.commands ++ [i]
          checkouts := if dry then s.checkouts else s.checkouts ++ [i] }
      obtain ⟨ihv, ihc, ihk, ihf, ihs⟩ := ih
      refine ⟨?_, ?_, ?_, ?_, ?_⟩
      · simp [hc, ihv]
      · simp [hc, ihc]
      · cases dry <;> simp_all
      · simp only [hc, if_pos]
        rw [ihf]
        cases s.firstFailure <;>
          simp [List.find?_cons_of_neg, hc]
      · simp [hc, ihs]
    · have ih := runWalk_spec cmd ff dry (if ff then rest else rest ++ cs)
        { firstFailure := match s.firstFailure with
            | none => some i
            | some x => some x
          success := false
          visited := s.visited ++ [i]
          commands := s.commands ++ [i]
          checkouts := if dry then s.checkouts else s.checkouts ++ [i] }
      obtain ⟨ihv, ihc, ihk, ihf, ihs⟩ := ih
      refine ⟨?_, ?_, ?_, ?_, ?_⟩
      · simp [hc, ihv]
      · simp [hc, ihc]
      · cases dry <;> simp_all
      · simp only [hc, if_neg, Bool.false_eq_true, not_false_iff]
        rw [ihf]
        cases s.firstFailure <;>
          simp [List.find?_cons_of_pos, hc]
      · simp [hc, ihs]
termination_by Forest.size ts
decreasing_by
  · simp only [Forest.size, Forest.size_append]; omega
  · split <;> simp only [Forest.size, Forest.size_append] <;> omega

theorem find?_eq_head?_filter {α : Type} (p : α → Bool) (l : List α) :
    l.find? p = (l.filter p).head? := by
  induction l with
  | nil => rfl
  | cons x xs ih =>
    by_cases hx : p x = true
    · rw [List.find?_cons_of_pos _ hx, List.filter_cons, if_pos hx]
      rfl
    · rw [List.find?_cons_of_neg _ hx, List.filter_cons, if_neg hx]
      exact ih

theorem allNodes_append (a b : List Tree) :
    allNodes (a ++ b) = allNodes a ++ allNodes b := by
  induction a with
  | nil => simp [allNodes]
  | cons t ts ih =>
    cases t with
    | node i cs =>
      rw [List.cons_append, allNodes, allNodes, ih]
      simp [List.append_assoc]

theorem survivors_append (cmd : Nat → CmdOutcome) (a b : List Tree) :
    survivors cmd (a ++ b) = survivors cmd a ++ survivors cmd b := by
  induction a with
  | nil => simp [survivors]
  | cons t ts ih =>
    cases t with
    | node i cs =>
      rw [List.cons_append, survivors, survivors, ih]
      simp [List.append_assoc]

/-- With fail-fast active, the walk visits exactly the nodes none of
whose strict ancestors failed: the failing node itself is visited, its
subtree is pruned, and sibling subtrees still run. -/
theorem walkVisits_ff_perm (cmd : Nat → CmdOutcome) (ts : List Tree) :
    List.Perm (walkVisits cmd true ts) (survivors cmd ts) := by
  match ts with
  | [] => simp [walkVisits_nil, survivors]
  | Tree.node i cs :: rest =>
    rw [walkVisits_cons, survivors]
    by_cases hc : (cmd i).isSuccess = true
    · have ih := walkVisits_ff_perm cmd (rest ++ cs)
      rw [survivors_append] at ih
      have h2 := (ih.trans List.perm_append_comm).cons i
      simpa [hc] using h2
    · have ih := walkVisits_ff_perm cmd rest
      simpa [hc] using ih.cons i
termination_by Forest.size ts
decreasing_by
  · simp only [Forest.size, Forest.size_append]; omega
  · simp only [Forest.size]; omega

/-- Without fail-fast, the walk visits every node of the forest. -/
theorem walkVisits_noff_perm (cmd : Nat → CmdOutcome) (ts : List Tree) :
    List.Perm (walkVisits cmd false ts) (allNodes ts) := by
  match ts with
  | [] => simp [walkVisits_nil, allNodes]
  | Tree.node i cs :: rest =>
    rw [walkVisits_cons, allNodes]
    have ih := walkVisits_noff_perm cmd (rest ++ cs)
    rw [allNodes_append] at ih
    have h2 := (ih.trans List.perm_append_comm).cons i
    by_cases hc : (cmd i).isSuccess = true
    · simpa [hc] using h2
    · simpa [hc] using h2
termination_by Forest.size ts
decreasing_by
  · simp only [Forest.size, Forest.size_append]; omega

theorem wsOf_visited (a : RunArgs) (env : Env) :
    (wsOf a env).visited = visitsOf a env :=
  (runWalk_spec env.cmd a.failFast a.dry_run env.graphChildren initWalk).1

theorem wsOf_commands (a : RunArgs) (env : Env) :
    (wsOf a env).commands = visitsOf a env :=
  (runWalk_spec env.cmd a.failFast a.dry_run env.graphChildren initWalk).2.1

theorem wsOf_checkouts (a : RunArgs) (env : Env) :
    (wsOf a env).checkouts = if a.dry_run then [] else visitsOf a env := by
  have h :=
    (runWalk_spec env.cmd a.failFast a.dry_run env.graphChildren initWalk).2.2.1
  simpa [initWalk, visitsOf, wsOf] using h

theorem wsOf_firstFailure (a : RunArgs) (env : Env) :
    (wsOf a env).firstFailure =
      (visitsOf a env).find? (fun i => !(env.cmd i).isSuccess) :=
  (runWalk_spec env.cmd a.failFast a.dry_run env.graphChildren initWalk).2.2.2.1

theorem wsOf_success (a : RunArgs) (env : Env) :
    (wsOf a env).success =
      (visitsOf a env).all (fun i => (env.cmd i).isSuccess) := by
  have h :=
    (runWalk_spec env.cmd a.failFast a.dry_run env.graphChildren initWalk).2.2.2.2
  simpa [initWalk, visitsOf, wsOf] using h

/-- `success` is cleared exactly when a first failure got recorded. -/
theorem wsOf_success_iff (a : RunArgs) (env : Env) :
    (wsOf a env).success = false ↔ (wsOf a env).firstFailure.isSome = true := by
  rw [wsOf_success, wsOf_firstFailure, List.find?_isSome]
  simp [List.all_eq_true]

/-- When the pre-flight passes, `exec` runs the walk and then takes one
of the two post-flight branches. -/
theorem exec_eq_of_preflight (a : RunArgs) (env : Env)
    (h : preflightOk a env = true) :
    exec a env =
      (let ws := wsOf a env
       let doStash : Bool := !a.dry_run && !a.switch
       let stashId : Option Nat := if doStash && env.dirty then some 0 else none
       let base : ExecResult :=
         { exit := 0, stashPushCalled := doStash, stashId := stashId,
           stashPopCalled := false,
           checkouts := ws.checkouts.map CheckoutTarget.commit,
           visited := ws.visited, commands := ws.commands,
           firstFailure := ws.firstFailure,
           dirtyReported := env.dirty && !doStash && a.dry_run,
           panicked := false }
       if !ws.success && a.switch && ws.firstFailure != some env.headId then
         match stashId, ws.firstFailure with
         | none, some f =>
           { base with
             exit := FAILURE
             checkouts := base.checkouts ++
               (if a.dry_run then [] else [CheckoutTarget.commit f]) }
         | _, _ => { base with exit := PANIC, panicked := true }
       else
         { base with
           exit := if ws.success then 0 else FAILURE
           checkouts := base.checkouts ++
             (if a.dry_run then []
              else
                match env.headBranch with
                | some b => [CheckoutTarget.branch b]
                | none => [CheckoutTarget.commit env.headId])
           stashPopCalled := true }) := by
  simp only [preflightOk, Env.collabOk, Bool.and_eq_true, Bool.not_eq_true'] at h
  obtain ⟨⟨⟨⟨⟨⟨h1, h2⟩, h3⟩, h4⟩, h5⟩, h6⟩, h7⟩ := h
  obtain ⟨m, hm⟩ := Option.isSome_iff_exists.mp h6
  clear h6
  unfold exec
  rw [h1, h2, h3, h4, hm]
  cases hdry : a.dry_run <;> cases hsw : a.switch <;>
    cases hdirty : env.dirty <;>
    simp_all [wsOf, earlyExit, h5, Bool.and_eq_true]

/-- When the pre-flight fails, `exec` stops before the walk: nothing is
visited, no command is spawned, no checkout and no stash pop happen,
and the exit code is one of the pre-flight error codes. -/
theorem exec_of_not_preflight (a : RunArgs) (env : Env)
    (h : preflightOk a env = false) :
    (exec a env).visited = [] ∧ (exec a env).commands = [] ∧
    (exec a env).checkouts = [] ∧ (exec a env).panicked = false ∧
    (exec a env).stashPopCalled = false ∧
    ((exec a env).exit = USAGE_ERR ∨ (exec a env).exit = CONFIG_ERR ∨
      (exec a env).exit = FAILURE) ∧
    (a.switch = true → (exec a env).stashId = none) ∧
    ((a.dry_run = true ∨ a.switch = true) →
      (exec a env).stashPushCalled = false) := by
  unfold exec
  split
  · exact ⟨rfl, rfl, rfl, rfl, rfl, Or.inl rfl, fun _ => rfl, fun _ => rfl⟩
  split
  · exact ⟨rfl, rfl, rfl, rfl, rfl, Or.inr (Or.inl rfl), fun _ => rfl,
      fun _ => rfl⟩
  split
  · exact ⟨rfl, rfl, rfl, rfl, rfl, Or.inr (Or.inl rfl), fun _ => rfl,
      fun _ => rfl⟩
  split
  · exact ⟨rfl, rfl, rfl, rfl, rfl, Or.inr (Or.inr rfl), fun _ => rfl,
      fun _ => rfl⟩
  simp only
  split
  · exact ⟨rfl, rfl, rfl, rfl, rfl, Or.inl rfl, fun hsw => by simp [hsw],
      fun hor => by rcases hor with hh | hh <;> simp [hh]⟩
  split
  · exact ⟨rfl, rfl, rfl, rfl, rfl, Or.inl rfl, fun hsw => by simp [hsw],
      fun hor => by rcases hor with hh | hh <;> simp [hh]⟩
  split
  · exact ⟨rfl, rfl, rfl, rfl, rfl, Or.inr (Or.inr rfl),
      fun hsw => by simp [hsw],
      fun hor => by rcases hor with hh | hh <;> simp [hh]⟩
  exfalso
  rename_i hc1 hc2 hc3 hc4 hc5 hm hc6
  simp only [preflightOk, Env.collabOk] at h
  cases hdry : a.dry_run <;> cases hsw : a.switch <;>
    cases hdirty : env.dirty <;> simp_all

/-- The `assert!`/`unwrap` pair on the switch-to-failure path can never
fire: on that path `--switch` was given, so no stash was pushed, and a
recorded failure means `first_failure` is `Some`. -/
theorem exec_panicked_false (a : RunArgs) (env : Env) :
    (exec a env).panicked = false := by
  by_cases h : preflightOk a env = true
  · rw [exec_eq_of_preflight a env h]
    simp only
    split
    · rename_i hcond
      rw [Bool.and_eq_true, Bool.and_eq_true] at hcond
      obtain ⟨⟨hsF, hsw⟩, hne⟩ := hcond
      rw [Bool.not_eq_true'] at hsF
      have hid : (if (!a.dry_run && !a.switch) && env.dirty
          then (some 0 : Option Nat) else none) = none := by
        rw [hsw]; simp
      rw [hid]
      obtain ⟨f, hf⟩ :=
        Option.isSome_iff_exists.mp ((wsOf_success_iff a env).mp hsF)
      rw [hf]
    · rfl
  · exact (exec_of_not_preflight a env (by simpa using h)).2.2.2.1

/-- On every path, if `--switch` was given then no stash exists. -/
theorem exec_stashId_none_of_switch (a : RunArgs) (env : Env)
    (h : a.switch = true) :
    (exec a env).stashId = none := by
  by_cases hp : preflightOk a env = true
  · rw [exec_eq_of_preflight a env hp]
    have hid : (if (!a.dry_run && !a.switch) && env.dirty
        then (some 0 : Option Nat) else none) = none := by simp [h]
    simp only
    split
    · split
      · exact hid
      · exact hid
    · exact hid
  · exact (exec_of_not_preflight a env (by simpa using hp)).2.2.2.2.2.2.1 h

/-- The switch-to-failure branch of the post-flight: a failed run with
`--switch` whose first failure is not the original head exits with the
generic failure code, pops no stash, and (in a real run) ends with a
checkout of the first failing commit. -/
theorem exec_switch_eq (a : RunArgs) (env : Env) (f : Nat)
    (h : preflightOk a env = true) (hsw : a.switch = true)
    (hf : (wsOf a env).firstFailure = some f) (hne : f ≠ env.headId) :
    exec a env =
      { exit := FAILURE, stashPushCalled := false, stashId := none,
        stashPopCalled := false,
        checkouts := (wsOf a env).checkouts.map CheckoutTarget.commit ++
          (if a.dry_run then [] else [CheckoutTarget.commit f]),
        visited := (wsOf a env).visited,
        commands := (wsOf a env).commands,
        firstFailure := some f,
        dirtyReported := env.dirty && a.dry_run,
        panicked := false } := by
  rw [exec_eq_of_preflight a env h]
  have hsF : (wsOf a env).success = false :=
    (wsOf_success_iff a env).mpr (by simp [hf])
  simp [hsw, hsF, hf, hne]

/-- The restore branch of the post-flight: when the switch-to-failure
condition does not hold, `exec` restores the original position (in a
real run) and calls `stash_pop`; the exit code is `0` exactly when the
walk succeeded. -/
theorem exec_restore_eq (a : RunArgs) (env : Env)
    (h : preflightOk a env = true)
    (hbr : (!(wsOf a env).success && a.switch &&
      ((wsOf a env).firstFailure != some env.headId)) = false) :
    exec a env =
      { exit := if (wsOf a env).success then 0 else FAILURE,
        stashPushCalled := !a.dry_run && !a.switch,
        stashId := if (!a.dry_run && !a.switch) && env.dirty
          then some 0 else none,
        stashPopCalled := true,
        checkouts := (wsOf a env).checkouts.map CheckoutTarget.commit ++
          (if a.dry_run then []
           else
             match env.headBranch with
             | some b => [CheckoutTarget.branch b]
             | none => [CheckoutTarget.commit env.headId]),
        visited := (wsOf a env).visited,
        commands := (wsOf a env).commands,
        firstFailure := (wsOf a env).firstFailure,
        dirtyReported := env.dirty && !(!a.dry_run && !a.switch) && a.dry_run,
        panicked := false } := by
  rw [exec_eq_of_preflight a env h]
  simp [hbr]

/-- Both post-flight branches leave the walk's outcome fields intact. -/
theorem exec_walk_fields (a : RunArgs) (env : Env)
    (h : preflightOk a env = true) :
    (exec a env).visited = (wsOf a env).visited ∧
    (exec a env).commands = (wsOf a env).commands ∧
    (exec a env).firstFailure = (wsOf a env).firstFailure := by
  rw [exec_eq_of_preflight a env h]
  simp only
  split
  · split
    · exact ⟨rfl, rfl, rfl⟩
    · exact ⟨rfl, rfl, rfl⟩
  · exact ⟨rfl, rfl, rfl⟩

/-- The exit code after a completed walk: `0` exactly when every
spawned command succeeded, the generic failure code otherwise. -/
theorem exec_exit_eq (a : RunArgs) (env : Env)
    (h : preflightOk a env = true) :
    (exec a env).exit =
      if (wsOf a env).success = true then 0 else FAILURE := by
  rw [exec_eq_of_preflight a env h]
  simp only
  split
  · rename_i hcond
    rw [Bool.and_eq_true, Bool.and_eq_true] at hcond
    obtain ⟨⟨hsF, hsw⟩, hne⟩ := hcond
    rw [Bool.not_eq_true'] at hsF
    have hid : (if (!a.dry_run && !a.switch) && env.dirty
        then (some 0 : Option Nat) else none) = none := by simp [hsw]
    rw [hid]
    obtain ⟨f, hf⟩ :=
      Option.isSome_iff_exists.mp ((wsOf_success_iff a env).mp hsF)
    rw [hf]
    simp [hsF, FAILURE]
  · rfl

/-- Under `--dry-run` the run mutates nothing: no checkout, no stash
push, no actual stash pop — on every path. -/
theorem exec_dry_frame (a : RunArgs) (env : Env) (hdry : a.dry_run = true) :
    (exec a env).checkouts = [] ∧ (exec a env).stashPushCalled = false ∧
    (exec a env).stashPopPerformed = false := by
  by_cases hp : preflightOk a env = true
  · have hck : (wsOf a env).checkouts = [] := by
      rw [wsOf_checkouts]; simp [hdry]
    rw [exec_eq_of_preflight a env hp]
    simp only
    split
    · split <;> simp [hck, hdry, ExecResult.stashPopPerformed]
    · simp [hck, hdry, ExecResult.stashPopPerformed]
  · have h := exec_of_not_preflight a env (by simpa using hp)
    exact ⟨h.2.2.1, h.2.2.2.2.2.2.2 (Or.inl hdry),
      by simp [ExecResult.stashPopPerformed, h.2.2.2.2.1]⟩

/-- After a successful collaborator pre-flight, a dry run reports the
tree's dirtiness as a diagnostic on every path it can continue to. -/
theorem exec_dirtyReported (a : RunArgs) (env : Env)
    (hcol : env.collabOk = true) (hdry : a.dry_run = true) :
    (exec a env).dirtyReported = env.dirty := by
  simp only [Env.collabOk, Bool.and_eq_true] at hcol
  obtain ⟨⟨⟨h1, h2⟩, h3⟩, h4⟩ := hcol
  unfold exec
  split
  · rename_i hc; rw [h1] at hc; simp at hc
  split
  · rename_i hc; rw [h2] at hc; simp at hc
  split
  · rename_i hc; rw [h3] at hc; simp at hc
  split
  · rename_i hc; rw [h4] at hc; simp at hc
  simp only
  split
  · rename_i hc; rw [hdry] at hc; simp at hc
  split
  · simp [hdry]
  split
  · simp [hdry]
  split
  · split
    · simp [hdry]
    · simp [hdry]
  · simp [hdry]

/-- A real `--switch` run over a dirty tree aborts at the dirty check:
no stash was taken, so the run refuses to continue with the usage
error, before the base is even resolved. -/
theorem exec_dirty_abort (a : RunArgs) (env : Env)
    (hcol : env.collabOk = true) (hsw : a.switch = true)
    (hdirty : env.dirty = true) (hdry : a.dry_run = false) :
    exec a env = earlyExit USAGE_ERR := by
  simp only [Env.collabOk, Bool.and_eq_true] at hcol
  obtain ⟨⟨⟨h1, h2⟩, h3⟩, h4⟩ := hcol
  unfold exec
  rw [h1, h2, h3, h4, hsw, hdirty, hdry]
  simp [earlyExit]

/-- C1: For every run of the cascade, the recorded first failure is the
commit of the earliest visited node whose command failed — it is set
only when no failure has been recorded yet, and later failures never
replace it. -/
theorem claim_c1_first_failure_wins (cmd : Nat → CmdOutcome)
    (ff dry : Bool) (ts : List Tree) :
    (runWalk cmd ff dry ts initWalk).firstFailure =
      ((runWalk cmd ff dry ts initWalk).visited.filter
        (fun i => !(cmd i).isSuccess)).head? := by
  have h := runWalk_spec cmd ff dry ts initWalk
  rw [h.1, h.2.2.2.1]
  show (walkVisits cmd ff ts).find? (fun i => !(cmd i).isSuccess) = _
  rw [find?_eq_head?_filter]
  rfl

/-- C5 (counterexample): with a healthy repository but no common
ancestor between base and head, `exec` exits with the usage-error
code, not the generic failure code the claim asserts. -/
theorem claim_c5_counterexample :
    (exec defaultArgs { baseEnv with mergeBase := none }).exit = USAGE_ERR ∧
    USAGE_ERR ≠ FAILURE := by
  exact ⟨rfl, by decide⟩

/-- C5 (amended): when no common ancestor exists between the resolved
base and the current head (and the pre-flight up to that point passed),
the command fails fatally with the usage-error code, which is distinct
from the generic failure code. -/
theorem claim_c5_no_base_usage_err (a : RunArgs) (env : Env)
    (hcol : env.collabOk = true)
    (_hnd : (env.dirty && a.switch && !a.dry_run) = false)
    (hmb : env.mergeBase = none) :
    (exec a env).exit = USAGE_ERR ∧ USAGE_ERR ≠ FAILURE := by
  simp only [Env.collabOk, Bool.and_eq_true] at hcol
  obtain ⟨⟨⟨h1, h2⟩, h3⟩, h4⟩ := hcol
  unfold exec
  rw [h1, h2, h3, h4, hmb]
  refine ⟨?_, by decide⟩
  simp only
  split
  · rfl
  · split
    · rfl
    · rfl

/-- C5 witness for the amended theorem. -/
theorem claim_c5_witness :
    (exec defaultArgs { baseEnv with mergeBase := none }).exit = USAGE_ERR ∧
    USAGE_ERR ≠ FAILURE :=
  claim_c5_no_base_usage_err defaultArgs { baseEnv with mergeBase := none }
    rfl rfl rfl

/-- C6: the fail-fast policy defaults to `true` when neither `--ff` nor
`--no-fail-fast` is given; with fail-fast active the walk visits
exactly the nodes below no failing node (a failing node's descendants
are pruned, its siblings still run); with `--no-fail-fast` the walk
visits every node of the stack. -/
theorem claim_c6_fail_fast_policy :
    (∀ (sw dr : Bool),
      RunArgs.failFast
        { no_fail_fast := false, ff_flag := false, switch := sw,
          dry_run := dr } = true) ∧
    (∀ (cmd : Nat → CmdOutcome) (dry : Bool) (ts : List Tree),
      List.Perm (runWalk cmd true dry ts initWalk).visited
        (survivors cmd ts)) ∧
    (∀ (cmd : Nat → CmdOutcome) (dry : Bool) (ts : List Tree),
      List.Perm (runWalk cmd false dry ts initWalk).visited
        (allNodes ts)) := by
  refine ⟨fun sw dr => rfl, ?_, ?_⟩
  · intro cmd dry ts
    rw [(runWalk_spec cmd true dry ts initWalk).1]
    simpa [initWalk] using walkVisits_ff_perm cmd ts
  · intro cmd dry ts
    rw [(runWalk_spec cmd false dry ts initWalk).1]
    simpa [initWalk] using walkVisits_noff_perm cmd ts

/-- C9: the assertion guarding the switch-to-failure path never fires,
because a stash is only ever pushed when `--switch` is absent, so on
every `--switch` run the stash identifier is `None`. -/
theorem claim_c9_assert_never_fails (a : RunArgs) (env : Env) :
    (exec a env).panicked = false ∧
    (a.switch = true → (exec a env).stashId = none) :=
  ⟨exec_panicked_false a env, fun h => exec_stashId_none_of_switch a env h⟩

/-- C9 witness: a concrete `--switch` run with a failure. -/
theorem claim_c9_witness :
    (exec switchArgs envFail2).panicked = false ∧
    (exec switchArgs envFail2).stashId = none :=
  ⟨(claim_c9_assert_never_fails switchArgs envFail2).1,
    (claim_c9_assert_never_fails switchArgs envFail2).2 rfl⟩

/-- C2: on a failed `--switch` run whose first failure is not the
original head, the post-flight moves the working tree to the first
failing commit and performs no stash pop; when the first failure is the
head itself, no switch-to-failure occurs and the normal restoration
path (with its stash pop) runs instead. -/
theorem claim_c2_switch_to_failure (a : RunArgs) (env : Env) (f : Nat)
    (hpre : preflightOk a env = true) (hsw : a.switch = true)
    (hf : (exec a env).firstFailure = some f) :
    (f ≠ env.headId →
      (exec a env).stashPopCalled = false ∧
      (a.dry_run = false →
        (exec a env).checkouts.getLast? =
          some (CheckoutTarget.commit f))) ∧
    (f = env.headId →
      (exec a env).stashPopCalled = true ∧
      (a.dry_run = false →
        (exec a env).checkouts.getLast? =
          some (match env.headBranch with
            | some b => CheckoutTarget.branch b
            | none => CheckoutTarget.commit env.headId))) := by
  have hwf : (wsOf a env).firstFailure = some f := by
    rw [← (exec_walk_fields a env hpre).2.2]; exact hf
  constructor
  · intro hne
    rw [exec_switch_eq a env f hpre hsw hwf hne]
    refine ⟨rfl, fun hdry => ?_⟩
    simp [hdry, List.getLast?_concat]
  · intro heq
    subst heq
    have hbr : (!(wsOf a env).success && a.switch &&
        ((wsOf a env).firstFailure != some env.headId)) = false := by
      simp [hwf]
    rw [exec_restore_eq a env hpre hbr]
    refine ⟨rfl, fun hdry => ?_⟩
    cases hb : env.headBranch <;> simp [hdry, hb, List.getLast?_concat]

set_option maxHeartbeats 1000000 in
/-- C2 witness: the failure at commit 2 on a `--switch` run leaves the
tree at commit 2 with no stash pop. -/
theorem claim_c2_witness :
    preflightOk switchArgs envFail2 = true ∧
    (exec switchArgs envFail2).firstFailure = some 2 ∧
    (exec switchArgs envFail2).stashPopCalled = false ∧
    (exec switchArgs envFail2).checkouts.getLast? =
      some (CheckoutTarget.commit 2) := by
  have hf : (exec switchArgs envFail2).firstFailure = some 2 := by
    simp [exec, switchArgs, defaultArgs, envFail2, baseEnv, sampleTree,
      failsAt2, runWalk_cons, runWalk_nil, CmdOutcome.isSuccess,
      RunArgs.failFast, resolve_bool_arg, initWalk, earlyExit]
  have h := claim_c2_switch_to_failure switchArgs envFail2 2 rfl rfl hf
  have h1 := h.1 (by decide)
  exact ⟨rfl, hf, h1.1, h1.2 rfl⟩

/-- C3: once the walk runs, the exit code is `0` iff every cascaded
command succeeded (zero exit status; non-zero status, a signal, or a
spawn failure all count as failure), and otherwise it is the generic
failure code, distinct from the usage-error and config-error codes. -/
theorem claim_c3_exit_code (a : RunArgs) (env : Env)
    (hpre : preflightOk a env = true) :
    ((exec a env).exit = 0 ↔
      ∀ i ∈ (exec a env).visited, (env.cmd i).isSuccess = true) ∧
    ((exec a env).exit = 0 ∨ (exec a env).exit = FAILURE) ∧
    FAILURE ≠ USAGE_ERR ∧ FAILURE ≠ CONFIG_ERR := by
  have hv := (exec_walk_fields a env hpre).1
  have he := exec_exit_eq a env hpre
  refine ⟨?_, ?_, by decide, by decide⟩
  · rw [he, hv, wsOf_visited, wsOf_success]
    cases hs : (visitsOf a env).all (fun i => (env.cmd i).isSuccess)
    · have hno : ¬ ∀ i ∈ visitsOf a env, (env.cmd i).isSuccess = true := by
        intro hall
        have hT : (visitsOf a env).all
            (fun i => (env.cmd i).isSuccess) = true := by
          rw [List.all_eq_true]
          exact fun i hi => hall i hi
        rw [hT] at hs
        cases hs
      simp [FAILURE, hno]
    · simp [List.all_eq_true] at hs
      constructor
      · intro _
        exact hs
      · intro _
        simp
  · rw [he]
    cases hsx : (wsOf a env).success <;> simp

set_option maxHeartbeats 1000000 in
/-- C3 witness: the failing run exits non-zero; hypotheses hold at the
sample inputs. -/
theorem claim_c3_witness :
    preflightOk defaultArgs envFail2 = true ∧
    (((exec defaultArgs envFail2).exit = 0 ↔
      ∀ i ∈ (exec defaultArgs envFail2).visited,
        (envFail2.cmd i).isSuccess = true) ∧
    ((exec defaultArgs envFail2).exit = 0 ∨
      (exec defaultArgs envFail2).exit = FAILURE) ∧
    FAILURE ≠ USAGE_ERR ∧ FAILURE ≠ CONFIG_ERR) :=
  ⟨rfl, claim_c3_exit_code defaultArgs envFail2 rfl⟩

/-- C4: the stash push is attempted exactly when the run is neither a
dry run nor a `--switch` run; on a real `--switch` run with a dirty
tree the command aborts with the usage-error code before visiting any
node, while a dry run merely reports the dirty tree. -/
theorem claim_c4_stash_policy (a : RunArgs) (env : Env)
    (hcol : env.collabOk = true) :
    (exec a env).stashPushCalled = (!a.dry_run && !a.switch) ∧
    (a.switch = true → env.dirty = true → a.dry_run = false →
      (exec a env).exit = USAGE_ERR ∧ (exec a env).visited = []) ∧
    (a.switch = true → env.dirty = true → a.dry_run = true →
      (exec a env).dirtyReported = true) := by
  have hcol' := hcol
  simp only [Env.collabOk, Bool.and_eq_true] at hcol'
  obtain ⟨⟨⟨h1, h2⟩, h3⟩, h4⟩ := hcol'
  refine ⟨?_, ?_, ?_⟩
  · unfold exec
    split
    · rename_i hc; rw [h1] at hc; simp at hc
    split
    · rename_i hc; rw [h2] at hc; simp at hc
    split
    · rename_i hc; rw [h3] at hc; simp at hc
    split
    · rename_i hc; rw [h4] at hc; simp at hc
    simp only
    split
    · rfl
    split
    · rfl
    split
    · rfl
    split
    · split
      · rfl
      · rfl
    · rfl
  · intro hsw hdirty hdry
    rw [exec_dirty_abort a env hcol hsw hdirty hdry]
    exact ⟨rfl, rfl⟩
  · intro hsw hdirty hdry
    rw [exec_dirtyReported a env hcol hdry, hdirty]

/-- C4 witness: a real dirty `--switch` run aborts with the usage-error
code before visiting anything, and pushes no stash. -/
theorem claim_c4_witness :
    Env.collabOk { baseEnv with dirty := true } = true ∧
    (exec switchArgs { baseEnv with dirty := true }).stashPushCalled
      = false ∧
    (exec switchArgs { baseEnv with dirty := true }).exit = USAGE_ERR ∧
    (exec switchArgs { baseEnv with dirty := true }).visited = [] := by
  have h := claim_c4_stash_policy switchArgs { baseEnv with dirty := true } rfl
  exact ⟨rfl, h.1, (h.2.1 rfl rfl rfl).1, (h.2.1 rfl rfl rfl).2⟩

/-- C7: when every cascaded command succeeded, or the run failed but
`--switch` was not given, the post-flight restores the original branch
(or the original commit when detached) and then calls `stash_pop`,
which pops exactly when a stash was created; an all-success run exits
`0`. -/
theorem claim_c7_restore (a : RunArgs) (env : Env)
    (hpre : preflightOk a env = true)
    (hok : (∀ i ∈ (exec a env).visited, (env.cmd i).isSuccess = true) ∨
      a.switch = false) :
    (exec a env).stashPopCalled = true ∧
    (exec a env).stashPopPerformed = (exec a env).stashId.isSome ∧
    (a.dry_run = false →
      (exec a env).checkouts.getLast? =
        some (match env.headBranch with
          | some b => CheckoutTarget.branch b
          | none => CheckoutTarget.commit env.headId)) ∧
    ((∀ i ∈ (exec a env).visited, (env.cmd i).isSuccess = true) →
      (exec a env).exit = 0) := by
  have hv : (exec a env).visited = visitsOf a env := by
    rw [(exec_walk_fields a env hpre).1, wsOf_visited]
  have hsucc : (∀ i ∈ visitsOf a env, (env.cmd i).isSuccess = true) →
      (wsOf a env).success = true := by
    intro hall
    rw [wsOf_success]
    simpa [List.all_eq_true] using hall
  have hbr : (!(wsOf a env).success && a.switch &&
      ((wsOf a env).firstFailure != some env.headId)) = false := by
    rw [hv] at hok
    rcases hok with hall | hsw
    · simp [hsucc hall]
    · simp [hsw]
  rw [exec_restore_eq a env hpre hbr] at hv ⊢
  refine ⟨rfl, ?_, fun hdry => ?_, fun hall => ?_⟩
  · simp [ExecResult.stashPopPerformed]
  · cases hb : env.headBranch <;> simp [hdry, hb, List.getLast?_concat]
  · rw [hv] at hall
    simp [hsucc hall]

/-- C7 witness: the all-success run restores branch `main`, pops the
(empty) stash slot, and exits `0`. -/
theorem claim_c7_witness :
    preflightOk defaultArgs baseEnv = true ∧
    (exec defaultArgs baseEnv).stashPopCalled = true ∧
    (exec defaultArgs baseEnv).checkouts.getLast? =
      some (CheckoutTarget.branch "main") ∧
    (exec defaultArgs baseEnv).exit = 0 := by
  have h := claim_c7_restore defaultArgs baseEnv rfl (Or.inr rfl)
  exact ⟨rfl, h.1, h.2.2.1 rfl, h.2.2.2 (fun i hi => rfl)⟩

/-- C8: under `--dry-run` the run performs zero working-tree checkouts
and zero stash operations regardless of dirtiness; after a successful
collaborator pre-flight a dirty tree is reported as a diagnostic, and
the run is never aborted for dirtiness — with a resolvable base it
finishes with `0` or the generic failure code. -/
theorem claim_c8_dry_run_frame (a : RunArgs) (env : Env)
    (hdry : a.dry_run = true) :
    (exec a env).checkouts = [] ∧
    (exec a env).stashPushCalled = false ∧
    (exec a env).stashPopPerformed = false ∧
    (env.collabOk = true →
      (exec a env).dirtyReported = env.dirty ∧
      (env.graphOk = true → env.mergeBase.isSome = true →
        ((exec a env).exit = 0 ∨ (exec a env).exit = FAILURE))) := by
  obtain ⟨hc, hpush, hpop⟩ := exec_dry_frame a env hdry
  refine ⟨hc, hpush, hpop, fun hcol => ⟨exec_dirtyReported a env hcol hdry, ?_⟩⟩
  intro hgr hmb
  have hp : preflightOk a env = true := by
    simp [preflightOk, hcol, hgr, hmb, hdry]
  rw [exec_exit_eq a env hp]
  cases (wsOf a env).success <;> simp

/-- C8 witness: a dirty dry run mutates nothing, reports the dirty
tree, and still finishes. -/
theorem claim_c8_witness :
    dryArgs.dry_run = true ∧
    (exec dryArgs { baseEnv with dirty := true }).checkouts = [] ∧
    (exec dryArgs { baseEnv with dirty := true }).stashPushCalled
      = false ∧
    (exec dryArgs { baseEnv with dirty := true }).stashPopPerformed
      = false ∧
    (exec dryArgs { baseEnv with dirty := true }).dirtyReported = true ∧
    ((exec dryArgs { baseEnv with dirty := true }).exit = 0 ∨
      (exec dryArgs { baseEnv with dirty := true }).exit = FAILURE) := by
  have h := claim_c8_dry_run_frame dryArgs { baseEnv with dirty := true } rfl
  have h4 := h.2.2.2 rfl
  exact ⟨rfl, h.1, h.2.1, h.2.2.1, h4.1, h4.2 rfl rfl⟩

/-- C10: under `--dry-run` the external command is still spawned once
for every node the cursor yields — only checkouts are skipped — and
the exit code reflects command failures exactly as in a real run. -/
theorem claim_c10_dry_run_cascade (a : RunArgs) (env : Env)
    (hdry : a.dry_run = true) (hpre : preflightOk a env = true) :
    (exec a env).commands = (exec a env).visited ∧
    (exec a env).visited = visitsOf a env ∧
    (exec a env).checkouts = [] ∧
    (exec a env).exit =
      (if (visitsOf a env).all (fun i => (env.cmd i).isSuccess) then 0
       else FAILURE) := by
  obtain ⟨hv, hcm, -⟩ := exec_walk_fields a env hpre
  refine ⟨?_, ?_, ?_, ?_⟩
  · rw [hv, hcm, wsOf_visited, wsOf_commands]
  · rw [hv, wsOf_visited]
  · exact (exec_dry_frame a env hdry).1
  · rw [exec_exit_eq a env hpre, wsOf_success]

/-- C10 witness: the dry run over the failing stack spawns the command
at every yielded node and exits with the failure code. -/
theorem claim_c10_witness :
    dryArgs.dry_run = true ∧ preflightOk dryArgs envFail2 = true ∧
    (exec dryArgs envFail2).commands = (exec dryArgs envFail2).visited ∧
    (exec dryArgs envFail2).visited = visitsOf dryArgs envFail2 ∧
    (exec dryArgs envFail2).checkouts = [] ∧
    (exec dryArgs envFail2).exit =
      (if (visitsOf dryArgs envFail2).all
        (fun i => (envFail2.cmd i).isSuccess) then 0 else FAILURE) := by
  have h := claim_c10_dry_run_cascade dryArgs envFail2 rfl rfl
  exact ⟨rfl, rfl, h.1, h.2.1, h.2.2.1, h.2.2.2⟩

end GitStackRun
